import Mathlib

/-!
Shallow embedding of the constraint-driven optics matching engine of madgui:
`madgui/component/matchtool.py` (MatchTransform, `_get_any_elem_param`,
class Matching) and `madgui/component/session.py` (Segment.twiss).

Numeric quantities are modelled as rationals; the unit-conversion layer
(`strip_unit` / `add_unit` / `dict_strip_unit` / `dict_add_unit`) is the
identity on these values, since no claim concerns unit factors.  The square
root used for the envelope columns (`** 0.5` in the source) is passed as an
abstract function parameter so that every definition stays executable.
Python dicts are modelled as association lists; key-order-sensitive facts
are noted where relevant.
-/

/-- A parameter value attached to an element: a bare numeric value that may
carry a symbolic expression identifier (`_expression` in the source). -/
structure ParamVal where
  value : ℚ
  expr : Option String
deriving DecidableEq, Repr

/-- One beamline element, as the dict-shaped records used by the source:
`name`, `type` tag, longitudinal position `at`, length `l`, and named
parameters. -/
structure Elem where
  name : String
  type : String
  at_ : ℚ
  l : ℚ
  params : List (String × ParamVal)
deriving DecidableEq, Repr

/-- First-match association list lookup, i.e. Python `d[k]`/`d.get(k)`. -/
def lookup? {β : Type} : List (String × β) → String → Option β
  | [], _ => none
  | (a, b) :: rest, k => if a = k then some b else lookup? rest k

/-- Python `d.get(k, default)`. -/
def lookupD {β : Type} (m : List (String × β)) (k : String) (d : β) : β :=
  (lookup? m k).getD d

/-- Python `d[k] = v` (replace the binding, or append a fresh one). -/
def setEntry {β : Type} : List (String × β) → String → β → List (String × β)
  | [], k, v => [(k, v)]
  | (a, b) :: rest, k, v =>
    if a = k then (k, v) :: rest else (a, b) :: setEntry rest k v

/-- Python `del d[k]`. -/
def eraseKey {β : Type} (m : List (String × β)) (k : String) : List (String × β) :=
  m.filter (fun p => ¬ p.1 = k)

/-- Python `d.setdefault(k, []).append(x)`. -/
def setdefaultAppend {β : Type} : List (String × List β) → String → β → List (String × List β)
  | [], k, x => [(k, [x])]
  | (a, l) :: rest, k, x =>
    if a = k then (a, l ++ [x]) :: rest else (a, l) :: setdefaultAppend rest k x

/-- The `Matching.constraints` mapping: axis name to ordered constraint list. -/
abbrev Constraints := List (String × List (Elem × ℚ))

/-- `Matching.find_constraint`: the constraints for `(axis, elem)`, matching
the element by full (dict) equality. -/
def find_constraint (cs : Constraints) (axis : String) (elem : Elem) : List (Elem × ℚ) :=
  (lookupD cs axis []).filter (fun c => c.1 = elem)

/-- `Matching.remove_constraint`.  Returns the updated mapping together with
a flag telling whether the `remove_constraint` hook was fired, which the
source does exactly when `len(filtered) < len(orig)`. -/
def remove_constraint (cs : Constraints) (axis : String) (elem : Elem) :
    Constraints × Bool :=
  match lookup? cs axis with
  | none => (cs, false)
  | some orig =>
    let filtered := orig.filter (fun c => ¬ c.1.name = elem.name)
    let cs' := if filtered.isEmpty then eraseKey cs axis else setEntry cs axis filtered
    (cs', decide (filtered.length < orig.length))

/-- `Matching.add_constraint`: remove any prior constraint for the pair,
then append the new one to the axis list (`_sconstr(axis).append(...)`). -/
def add_constraint (cs : Constraints) (axis : String) (elem : Elem) (envelope : ℚ) :
    Constraints :=
  setdefaultAppend (remove_constraint cs axis elem).1 axis (elem, envelope)

/-- `Matching.clear_constraints`. -/
def clear_constraints (_cs : Constraints) : Constraints := []

/-- `MatchTransform.__init__` captures the segment summary emittances. -/
structure MatchTransform where
  ex : ℚ
  ey : ℚ
deriving DecidableEq, Repr

def MatchTransform.envx (t : MatchTransform) (val : ℚ) : String × ℚ :=
  ("betx", val * val / t.ex)

def MatchTransform.envy (t : MatchTransform) (val : ℚ) : String × ℚ :=
  ("bety", val * val / t.ey)

def MatchTransform.x (_t : MatchTransform) (val : ℚ) : String × ℚ :=
  ("x", val)

/-- `posx = x` in the source. -/
def MatchTransform.posx : MatchTransform → ℚ → String × ℚ :=
  MatchTransform.x

def MatchTransform.y (_t : MatchTransform) (val : ℚ) : String × ℚ :=
  ("y", val)

/-- `posy = y` in the source. -/
def MatchTransform.posy : MatchTransform → ℚ → String × ℚ :=
  MatchTransform.y

/-- `getattr(trans, axis)(value)`: dispatch on the axis name; an unknown
axis raises (AttributeError), modelled as `none`. -/
def applyTrans (t : MatchTransform) (axis : String) (val : ℚ) : Option (String × ℚ) :=
  if axis = "envx" then some (t.envx val)
  else if axis = "envy" then some (t.envy val)
  else if axis = "x" then some (t.x val)
  else if axis = "posx" then some (t.posx val)
  else if axis = "y" then some (t.y val)
  else if axis = "posy" then some (t.posy val)
  else none

/-- `_get_any_elem_param`: try the eligible parameter names in order.  A
missing parameter (KeyError) is skipped; a bare value (AttributeError)
qualifies when nonzero, encoded as the `name->param` path; a parameter with
a symbolic expression is returned directly.  When no parameter qualifies
the source raises `ValueError`, modelled as `.error ()`. -/
def get_any_elem_param (elem : Elem) : List String → Except Unit String
  | [] => .error ()
  | p :: rest =>
    match lookup? elem.params p with
    | none => get_any_elem_param elem rest
    | some pv =>
      match pv.expr with
      | some e => .ok e
      | none =>
        if pv.value ≠ 0 then .ok (elem.name ++ "->" ++ p)
        else get_any_elem_param elem rest

/-- A candidate knob: `(element, eligible parameter names)`, exactly the
tuples built by `Matching._allvars`. -/
abbrev Cand := Elem × List String

/-- The per-axis variable pools, keyed by (transformed) axis name. -/
abbrev Pools := List (String × List Cand)

/-- The per-axis knob rule tables (`app.conf['matching']`): axis name to a
mapping from element type to the eligible parameter names. -/
abbrev Rules := List (String × List (String × List String))

/-- Body of `Matching._allvars`: filter the element list down to the types
listed in the axis rule table, keeping sequence order. -/
def allvarsFor (rules : Rules) (elements : List Elem) (axis : String) : List Cand :=
  let param_spec := lookupD rules axis []
  elements.filterMap (fun e => (lookup? param_spec e.type).map (fun ps => (e, ps)))

/-- `Matching._allvars` with its cache `_variable_parameters`: a cache hit
returns the stored list, a miss computes and stores it. -/
def allvarsCached (rules : Rules) (elements : List Elem) (cache : Pools) (axis : String) :
    Pools × List Cand :=
  match lookup? cache axis with
  | some l => (cache, l)
  | none =>
    let l := allvarsFor rules elements axis
    (cache ++ [(axis, l)], l)

/-- The dict comprehension `{axis: self._allvars(axis)[:] for axis in
trans_constr}` of `Matching.match`, threading the `_allvars` cache; returns
the updated cache and the working pools in key order. -/
def buildPools (rules : Rules) (elements : List Elem) :
    List String → Pools → Pools × Pools
  | [], cache => (cache, [])
  | a :: rest, cache =>
    let r1 := allvarsCached rules elements cache a
    let r2 := buildPools rules elements rest r1.1
    (r2.1, (a, r1.2) :: r2.2)

/-- The transformed constraint mapping built by the first loop of
`Matching.match` (`trans_constr`). -/
abbrev TransConstr := List (String × List (Elem × ℚ))

/-- Inner loop of the transform step: fold one axis's constraints into the
accumulated `trans_constr` mapping. -/
def transAxis (t : MatchTransform) (axis : String) :
    List (Elem × ℚ) → TransConstr → Except Unit TransConstr
  | [], acc => .ok acc
  | (e, v) :: rest, acc =>
    match applyTrans t axis v with
    | none => .error ()
    | some tv => transAxis t axis rest (setdefaultAppend acc tv.1 (e, tv.2))

/-- The transform loop of `Matching.match` over all axes. -/
def transConstr (t : MatchTransform) : Constraints → TransConstr → Except Unit TransConstr
  | [], acc => .ok acc
  | (axis, constr) :: rest, acc =>
    match transAxis t axis constr acc with
    | .error u => .error u
    | .ok acc' => transConstr t rest acc'

/-- State threaded through the greedy assignment loop of `Matching.match`:
the working pools and the vary list, plus `picks`, a verification ghost
recording each assignment as `(constraint element, chosen candidate)`; the
source appends `expr` to `vary` at exactly the moments a pair is appended
to `picks`. -/
structure GState where
  allvars : Pools
  vary : List String
  picks : List (Elem × Cand)
deriving Repr

/-- One comparison step of Python `max(..., key=lambda v: v[0]['at'])`: the
current maximum is replaced only on strict increase, so the first maximal
element wins. -/
def pmax (a b : Cand) : Cand :=
  if a.1.at_ < b.1.at_ then b else a

/-- Python `max(l, key=lambda v: v[0]['at'])` (`none` on the empty list,
which the source guards with `if not allowed: continue`). -/
def pickMax : List Cand → Option Cand
  | [] => none
  | h :: t => some (t.foldl pmax h)

/-- Body of the greedy loop of `Matching.match` for one constraint
`(axis, elem)`: filter the axis pool to strictly-upstream candidates, pick
the one with the largest position, resolve a modifiable parameter on it,
and on success append to `vary` and remove the chosen candidate from every
axis's pool (`c.remove(v)` with `ValueError` passed, i.e. `List.erase`).
A resolution failure propagates (`.error`), aborting the whole match. -/
def greedyStep (axis : String) (elem : Elem) (st : GState) : Except Unit GState :=
  let allowed := (lookupD st.allvars axis []).filter (fun v => v.1.at_ < elem.at_)
  match pickMax allowed with
  | none => .ok st
  | some v =>
    match get_any_elem_param v.1 v.2 with
    | .error _ => .error ()
    | .ok expr =>
      .ok { allvars := st.allvars.map (fun p => (p.1, p.2.erase v)),
            vary := st.vary ++ [expr],
            picks := st.picks ++ [(elem, v)] }

/-- The greedy loop of `Matching.match` over the flattened constraint
entries; a raised `ValueError` short-circuits everything. -/
def greedyLoop : List (String × Elem) → GState → Except Unit GState
  | [], st => .ok st
  | (axis, e) :: rest, st =>
    match greedyStep axis e st with
    | .error u => .error u
    | .ok st' => greedyLoop rest st'

/-- The request handed to `madx.match` (constraint values already
unit-stripped, the identity here). -/
structure EngineRequest where
  sequence : String
  vary : List String
  constraints : List (String × String × ℚ)
  twiss_init : List (String × ℚ)
deriving DecidableEq, Repr

/-- The state of one `Matching` instance together with the segment data
`match()` reads: sequence name, element list, summary emittances (for
`MatchTransform`), twiss initial conditions, the rule tables, the
`_variable_parameters` cache, the constraint mapping, and a ghost counter
of completed `Segment.twiss()` refreshes. -/
structure MatchingState where
  sequenceName : String
  elements : List Elem
  ex : ℚ
  ey : ℚ
  twiss_args : List (String × ℚ)
  rules : Rules
  varCache : Pools
  constraints : Constraints
  refreshCount : Nat
deriving Repr

/-- The final constraint list built for `madx.match` (lines 234-239):
`{'range': elem['name'], name: strip_unit(name, val)}`. -/
def buildEngineConstraints (tc : TransConstr) : List (String × String × ℚ) :=
  tc.flatMap (fun p => p.2.map (fun c => (c.1.name, p.1, c.2)))

/-- The iteration order of the greedy loop: all `(axis, elem)` pairs of
`trans_constr` in mapping/list order. -/
def flatEntries (tc : TransConstr) : List (String × Elem) :=
  tc.flatMap (fun p => p.2.map (fun c => (p.1, c.1)))

/-- The transform step of `Matching.match` on the live constraint set. -/
def matchTC (m : MatchingState) : Except Unit TransConstr :=
  transConstr ⟨m.ex, m.ey⟩ m.constraints []

/-- The pool-copy step of `Matching.match`: updated cache and working pools. -/
def matchPools (m : MatchingState) (tc : TransConstr) : Pools × Pools :=
  buildPools m.rules m.elements (tc.map (fun p => p.1)) m.varCache

/-- `Matching.match` as a state transition: returns the post-state (cache
possibly filled, constraints never touched, refresh counter bumped on
success) and either the request submitted to the external solver or the
propagated exception.  `segment.twiss()` runs only in the success branch,
after `madx.match`. -/
def matchRun (m : MatchingState) : MatchingState × Except Unit EngineRequest :=
  match matchTC m with
  | .error u => (m, .error u)
  | .ok tc =>
    let bp := matchPools m tc
    let m' := { m with varCache := bp.1 }
    match greedyLoop (flatEntries tc) ⟨bp.2, [], []⟩ with
    | .error u => (m', .error u)
    | .ok st =>
      ({ m' with refreshCount := m'.refreshCount + 1 },
       .ok { sequence := m.sequenceName, vary := st.vary,
             constraints := buildEngineConstraints tc,
             twiss_init := m.twiss_args })

/-- The assignment log of one `Matching.match` run. -/
def matchPicks (m : MatchingState) : Except Unit (List (Elem × Cand)) :=
  match matchTC m with
  | .error u => .error u
  | .ok tc =>
    (greedyLoop (flatEntries tc) ⟨(matchPools m tc).2, [], []⟩).map (fun st => st.picks)

/-- The raw result of `madx.twiss`: per-element columns plus the summary
scalars the post-processing reads (`ex`, `ey`). -/
structure TwissRaw where
  s : List ℚ
  x : List ℚ
  y : List ℚ
  betx : List ℚ
  bety : List ℚ
  ex : ℚ
  ey : ℚ
deriving DecidableEq, Repr

/-- The cached table `Segment.tw` after post-processing. -/
structure TwissTable where
  s : List ℚ
  x : List ℚ
  y : List ℚ
  betx : List ℚ
  bety : List ℚ
  envx : List ℚ
  envy : List ℚ
  posx : List ℚ
  posy : List ℚ
  pos : List ℚ
deriving DecidableEq, Repr

/-- `Segment.summary` (the fields the claims read). -/
structure Summary where
  ex : ℚ
  ey : ℚ
deriving DecidableEq, Repr

/-- The mutable optics cache of a `Segment`: `start.at` plus the cached
table and summary (none before the first successful `twiss()`). -/
structure Segment where
  startAt : ℚ
  table : Option TwissTable
  summary : Option Summary
deriving DecidableEq, Repr

/-- The post-processing of `Segment.twiss` (lines 429-440): shift the
position column by `start.at` (`self.pos` aliases the shifted column),
derive `envx`/`envy` from `betx`/`bety` and the summary emittances of the
same call, and alias `posx`/`posy` to `x`/`y`.  `sqrtQ` abstracts the
square root (`** 0.5`). -/
def computeTwiss (sqrtQ : ℚ → ℚ) (startAt : ℚ) (raw : TwissRaw) : TwissTable :=
  let shifted := raw.s.map (fun v => v + startAt)
  { s := shifted
    x := raw.x
    y := raw.y
    betx := raw.betx
    bety := raw.bety
    envx := raw.betx.map (fun b => sqrtQ (b * raw.ex))
    envy := raw.bety.map (fun b => sqrtQ (b * raw.ey))
    posx := raw.x
    posy := raw.y
    pos := shifted }

/-- `Segment.twiss`: `raw_twiss()` is called first (line 427); only when it
returns does any assignment to the cached state happen, so an engine
failure leaves the segment exactly as it was. -/
def twissRun (sqrtQ : ℚ → ℚ) (seg : Segment) (result : Except Unit TwissRaw) :
    Segment × Except Unit Unit :=
  match result with
  | .error u => (seg, .error u)
  | .ok raw =>
    ({ seg with
        table := some (computeTwiss sqrtQ seg.startAt raw)
        summary := some ⟨raw.ex, raw.ey⟩ },
     .ok ())

/-- Projection of a match result onto the submitted vary-list. -/
def varyOf : Except Unit EngineRequest → Option (List String)
  | .ok r => some r.vary
  | .error _ => none

/-- The working pools a `match()` run starts from (empty when the transform
step already fails). -/
def matchInitPools (m : MatchingState) : Pools :=
  match matchTC m with
  | .error _ => []
  | .ok tc => (matchPools m tc).2

/-- Well-formedness of the working pools: each pool lists each element name
at most once, and any two candidate entries (in any pools) sharing an
element name are equal, i.e. carry the same eligible-parameter list.  This
holds e.g. when the segment's element names are unique and all axes' rule
tables assign the same parameter list to each element type. -/
def PoolsOK (pools : Pools) : Prop :=
  (∀ p ∈ pools, (p.2.map (fun c => c.1.name)).Nodup) ∧
  ∀ p ∈ pools, ∀ q ∈ pools, ∀ c ∈ p.2, ∀ c' ∈ q.2, c.1.name = c'.1.name → c = c'

/-- Invariant of the greedy loop: well-formed pools, no already-picked
element left in any pool, and pairwise-distinct picked element names. -/
def GInv (st : GState) : Prop :=
  PoolsOK st.allvars ∧
  (∀ pk ∈ st.picks, ∀ p ∈ st.allvars, ∀ c ∈ p.2, ¬ c.1.name = pk.2.1.name) ∧
  (st.picks.map (fun pk => pk.2.1.name)).Nodup

/-! ### Concrete witness data -/

/-- A unit parameter value without symbolic expression. -/
def k1one : ParamVal := ⟨1, none⟩

/-- A zero parameter value without symbolic expression (not modifiable). -/
def k1zero : ParamVal := ⟨0, none⟩

def q1 : Elem := ⟨"q1", "quad", 0, 1, [("k1", k1one), ("k1s", k1one)]⟩

def mm : Elem := ⟨"mm", "monitor", 10, 0, []⟩

/-- Matching state whose two axes assign different parameter lists to the
`quad` type, with one constraint per axis at the same monitor. -/
def mDup : MatchingState :=
  { sequenceName := "seq", elements := [q1, mm], ex := 1, ey := 1,
    twiss_args := [],
    rules := [("betx", [("quad", ["k1"])]), ("bety", [("quad", ["k1s"])])],
    varCache := [],
    constraints := [("envx", [(mm, 1)]), ("envy", [(mm, 1)])],
    refreshCount := 0 }

/-- Same situation but with both axes' rule tables agreeing on `["k1"]`. -/
def mUniq : MatchingState :=
  { sequenceName := "seq", elements := [q1, mm], ex := 1, ey := 1,
    twiss_args := [],
    rules := [("betx", [("quad", ["k1"])]), ("bety", [("quad", ["k1"])])],
    varCache := [],
    constraints := [("envx", [(mm, 1)]), ("envy", [(mm, 1)])],
    refreshCount := 0 }

/-- A quadrupole whose only eligible parameter has value zero and no
symbolic expression: knob resolution on it fails. -/
def qz : Elem := ⟨"qz", "quad", 0, 1, [("k1", k1zero)]⟩

def mFail : MatchingState :=
  { sequenceName := "seq", elements := [qz, mm], ex := 1, ey := 1,
    twiss_args := [],
    rules := [("betx", [("quad", ["k1"])])],
    varCache := [],
    constraints := [("envx", [(mm, 1)])],
    refreshCount := 0 }

/-- The transformed constraints of `mFail` (projected out of `matchTC`). -/
def tcF : TransConstr := (matchTC mFail).toOption.getD []

def q10 : Elem := ⟨"q10", "quad", 10, 1, [("k1", k1one)]⟩

def q25 : Elem := ⟨"q25", "quad", 25, 1, [("k1", k1one)]⟩

def q40 : Elem := ⟨"q40", "quad", 40, 1, [("k1", k1one)]⟩

def e50 : Elem := ⟨"mon50", "monitor", 50, 0, []⟩

def e5 : Elem := ⟨"mon5", "monitor", 5, 0, []⟩

/-- Greedy state with candidates at positions 10, 25, 40 on one axis. -/
def st3 : GState :=
  ⟨[("betx", [(q10, ["k1"]), (q25, ["k1"]), (q40, ["k1"])])], [], []⟩

/-- The state after assigning the constraint at position 50 in `st3`. -/
def st3out : GState :=
  ⟨[("betx", [(q10, ["k1"]), (q25, ["k1"])])], ["q40->k1"], [(e50, (q40, ["k1"]))]⟩

/-- Greedy state whose only candidate sits at position 10, downstream of a
constraint at position 5. -/
def st4 : GState := ⟨[("betx", [(q10, ["k1"])])], [], []⟩

def rawW : TwissRaw := { s := [0], x := [7], y := [8], betx := [4], bety := [5], ex := 9, ey := 11 }

/-- A concrete stand-in for the abstract square-root parameter. -/
def sqrtW : ℚ → ℚ := fun q => q

def tc9 : TransConstr := [("betx", [(mm, 3)])]

/-! ### Helper lemmas -/

theorem pmax_left (a b : Cand) : a.1.at_ ≤ (pmax a b).1.at_ := by
  unfold pmax
  split
  · exact le_of_lt (by assumption)
  · exact le_refl _

theorem pmax_right (a b : Cand) : b.1.at_ ≤ (pmax a b).1.at_ := by
  unfold pmax
  split
  · exact le_refl _
  · exact le_of_not_lt (by assumption)

theorem pmax_or (a b : Cand) : pmax a b = a ∨ pmax a b = b := by
  unfold pmax
  split
  · exact Or.inr rfl
  · exact Or.inl rfl

theorem foldl_pmax_mem (t : List Cand) : ∀ h : Cand, t.foldl pmax h ∈ h :: t := by
  induction t with
  | nil => intro h; simp
  | cons b t ih =>
    intro h
    have hm := ih (pmax h b)
    simp only [List.foldl_cons]
    rcases List.mem_cons.mp hm with h2 | h2
    · rcases pmax_or h b with he | he
      · rw [h2, he]; exact List.mem_cons_self _ _
      · rw [h2, he]; exact List.mem_cons_of_mem _ (List.mem_cons_self _ _)
    · exact List.mem_cons_of_mem _ (List.mem_cons_of_mem _ h2)

theorem foldl_pmax_ge (t : List Cand) :
    ∀ (h c : Cand), c ∈ h :: t → c.1.at_ ≤ (t.foldl pmax h).1.at_ := by
  induction t with
  | nil =>
    intro h c hc
    simp at hc
    rw [hc]
    exact le_refl _
  | cons b t ih =>
    intro h c hc
    simp only [List.foldl_cons]
    rcases List.mem_cons.mp hc with h1 | h1
    · rw [h1]
      exact le_trans (pmax_left h b) (ih (pmax h b) _ (List.mem_cons_self _ _))
    · rcases List.mem_cons.mp h1 with h2 | h2
      · rw [h2]
        exact le_trans (pmax_right h b) (ih (pmax h b) _ (List.mem_cons_self _ _))
      · exact ih (pmax h b) c (List.mem_cons_of_mem _ h2)

theorem pickMax_mem {l : List Cand} {v : Cand} (h : pickMax l = some v) : v ∈ l := by
  cases l with
  | nil => simp [pickMax] at h
  | cons a t =>
    simp only [pickMax, Option.some.injEq] at h
    rw [← h]
    exact foldl_pmax_mem t a

theorem pickMax_ge {l : List Cand} {v : Cand} (h : pickMax l = some v) :
    ∀ c ∈ l, c.1.at_ ≤ v.1.at_ := by
  cases l with
  | nil => simp [pickMax] at h
  | cons a t =>
    simp only [pickMax, Option.some.injEq] at h
    intro c hc
    rw [← h]
    exact foldl_pmax_ge t a c hc

theorem lookup?_mem {β : Type} {m : List (String × β)} {k : String} {b : β}
    (h : lookup? m k = some b) : (k, b) ∈ m := by
  induction m with
  | nil => simp [lookup?] at h
  | cons p rest ih =>
    obtain ⟨a, x⟩ := p
    by_cases hak : a = k
    · subst hak
      simp [lookup?] at h
      rw [h]
      exact List.mem_cons_self _ _
    · simp [lookup?, hak] at h
      exact List.mem_cons_of_mem _ (ih h)

/-! ### Claim theorems -/

/-- C3: every knob assignment made by the greedy step of `Matching.match`
chooses a candidate from the axis pool whose position is strictly less than
the constraint element's position, and of largest position among all such
strictly-upstream pool candidates. -/
theorem greedy_pick_causality (st : GState) (axis : String) (e : Elem) (st' : GState) (v : Cand)
    (hstep : greedyStep axis e st = .ok st')
    (hpick : st'.picks = st.picks ++ [(e, v)]) :
    v ∈ lookupD st.allvars axis [] ∧ v.1.at_ < e.at_ ∧
      ∀ c ∈ lookupD st.allvars axis [], c.1.at_ < e.at_ → c.1.at_ ≤ v.1.at_ := by
  simp only [greedyStep] at hstep
  cases hm : pickMax ((lookupD st.allvars axis []).filter (fun c => c.1.at_ < e.at_)) with
  | none =>
    simp only [hm, Except.ok.injEq] at hstep
    rw [← hstep] at hpick
    simp at hpick
  | some w =>
    simp only [hm] at hstep
    cases hg : get_any_elem_param w.1 w.2 with
    | error u => simp [hg] at hstep
    | ok s =>
      simp only [hg, Except.ok.injEq] at hstep
      rw [← hstep] at hpick
      simp only [List.append_cancel_left_eq, List.cons.injEq, Prod.mk.injEq] at hpick
      have hwv : w = v := hpick.1.2
      subst hwv
      have hmem := pickMax_mem hm
      have h1 := List.mem_filter.mp hmem
      refine ⟨h1.1, by simpa using h1.2, ?_⟩
      intro c hc hlt
      exact pickMax_ge hm c (List.mem_filter.mpr ⟨hc, by simpa using hlt⟩)

/-- C3 witness: candidates at positions 10, 25, 40 and a constraint at 50;
the greedy step assigns the candidate at 40, which is strictly upstream and
maximal among strictly-upstream candidates. -/
theorem greedy_pick_causality_witness :
    greedyStep "betx" e50 st3 = .ok st3out ∧
      (q40, ["k1"]) ∈ lookupD st3.allvars "betx" [] ∧
      (q40, ["k1"]).1.at_ < e50.at_ ∧
      ∀ c ∈ lookupD st3.allvars "betx" [], c.1.at_ < e50.at_ → c.1.at_ ≤ (q40, ["k1"]).1.at_ :=
  ⟨by rfl, greedy_pick_causality st3 "betx" e50 st3out (q40, ["k1"]) (by rfl) (by decide)⟩

/-- C4: a constraint with no strictly-upstream pool candidate is skipped:
the greedy step leaves the state unchanged (no vary entry, no exception)
and the loop proceeds with the remaining constraints; moreover the greedy
step can only raise when a candidate was actually picked and resolving a
modifiable parameter on it failed. -/
theorem no_candidate_skips (axis : String) (e : Elem) (st : GState) (rest : List (String × Elem))
    (h : (lookupD st.allvars axis []).filter (fun c => c.1.at_ < e.at_) = []) :
    greedyStep axis e st = .ok st ∧
      greedyLoop ((axis, e) :: rest) st = greedyLoop rest st ∧
      ∀ st2 : GState, greedyStep axis e st2 = .error () →
        ∃ v, pickMax ((lookupD st2.allvars axis []).filter (fun c => c.1.at_ < e.at_)) = some v ∧
          get_any_elem_param v.1 v.2 = .error () := by
  have h1 : greedyStep axis e st = .ok st := by
    simp only [greedyStep, h, pickMax]
  refine ⟨h1, ?_, ?_⟩
  · simp only [greedyLoop, h1]
  · intro st2 h2
    simp only [greedyStep] at h2
    cases hm : pickMax ((lookupD st2.allvars axis []).filter (fun c => c.1.at_ < e.at_)) with
    | none => simp [hm] at h2
    | some v =>
      simp only [hm] at h2
      cases hg : get_any_elem_param v.1 v.2 with
      | error u => cases u; exact ⟨v, rfl, hg⟩
      | ok s => simp [hg] at h2

/-- C4 witness: a constraint at position 5 with the only candidate at
position 10 is skipped and the loop continues with a later constraint. -/
theorem no_candidate_skips_witness :
    greedyStep "betx" e5 st4 = .ok st4 ∧
      greedyLoop [("betx", e5), ("betx", e50)] st4 = greedyLoop [("betx", e50)] st4 ∧
      ∀ st2 : GState, greedyStep "betx" e5 st2 = .error () →
        ∃ v, pickMax ((lookupD st2.allvars "betx" []).filter (fun c => c.1.at_ < e5.at_)) = some v ∧
          get_any_elem_param v.1 v.2 = .error () :=
  no_candidate_skips "betx" e5 st4 [("betx", e50)] (by decide)

/-- C6: when the external twiss computation fails, `Segment.twiss` aborts
before any assignment to the cached state, leaving table and summary
exactly as they were. -/
theorem twiss_failure_preserves_cache (sqrtQ : ℚ → ℚ) (seg : Segment) :
    twissRun sqrtQ seg (.error ()) = (seg, .error ()) := rfl

/-- C9: the axis transform maps an envelope target σ to `(betx, σ²/ex)`
resp. `(bety, σ²/ey)` and is the identity on the position axes (with the
`posx`/`posy` aliases), and every transformed target value is passed to the
engine constraint list unchanged. -/
theorem axis_transform_formulas (t : MatchTransform) (σ v : ℚ) :
    applyTrans t "envx" σ = some ("betx", σ * σ / t.ex) ∧
    applyTrans t "envy" σ = some ("bety", σ * σ / t.ey) ∧
    applyTrans t "x" v = some ("x", v) ∧
    applyTrans t "posx" v = some ("x", v) ∧
    applyTrans t "y" v = some ("y", v) ∧
    applyTrans t "posy" v = some ("y", v) ∧
    ∀ (tc : TransConstr) (p : String × List (Elem × ℚ)) (c : Elem × ℚ),
      p ∈ tc → c ∈ p.2 → (c.1.name, p.1, c.2) ∈ buildEngineConstraints tc := by
  refine ⟨rfl, rfl, rfl, rfl, rfl, rfl, ?_⟩
  intro tc p c hp hc
  simp only [buildEngineConstraints, List.mem_flatMap]
  exact ⟨p, hp, List.mem_map.mpr ⟨c, hc, rfl⟩⟩

/-- C9 witness: a transformed constraint on `mm` with value 3 appears in
the engine constraint list with exactly that value, and the envelope
formula evaluates at concrete emittances. -/
theorem axis_transform_formulas_witness :
    (mm.name, "betx", (3 : ℚ)) ∈ buildEngineConstraints tc9 ∧
      applyTrans ⟨9, 11⟩ "envx" 5 = some ("betx", 5 * 5 / (9 : ℚ)) :=
  ⟨(axis_transform_formulas ⟨9, 11⟩ 5 0).2.2.2.2.2.2 tc9 ("betx", [(mm, 3)]) (mm, 3)
      (by decide) (by decide),
    (axis_transform_formulas ⟨9, 11⟩ 5 0).1⟩

/-- C10: removing a constraint on an axis that is absent from the mapping
is a silent no-op: the mapping is returned unchanged and the
`remove_constraint` hook is not fired. -/
theorem remove_constraint_missing_axis_noop (cs : Constraints) (axis : String) (elem : Elem)
    (h : lookup? cs axis = none) :
    remove_constraint cs axis elem = (cs, false) := by
  simp only [remove_constraint, h]

/-- C10 witness: removing from the empty mapping is a no-op. -/
theorem remove_constraint_missing_axis_noop_witness :
    remove_constraint [] "envx" mm = ([], false) :=
  remove_constraint_missing_axis_noop [] "envx" mm (by decide)

/-- C5: after the post-processing of `Segment.twiss`, each entry of the
position column is the engine's local position plus `start.at`, the
envelope columns are the square roots of `betx * ex` resp. `bety * ey` with
the emittances taken from the summary of the same call, and the
`posx`/`posy` aliases equal the `x`/`y` columns (and `pos` the shifted
position column). -/
theorem twiss_table_consistency (sqrtQ : ℚ → ℚ) (startAt : ℚ) (raw : TwissRaw) (i : ℕ) :
    (∀ sv, raw.s[i]? = some sv →
      (computeTwiss sqrtQ startAt raw).s[i]? = some (sv + startAt)) ∧
    (∀ b, raw.betx[i]? = some b →
      (computeTwiss sqrtQ startAt raw).envx[i]? = some (sqrtQ (b * raw.ex))) ∧
    (∀ b, raw.bety[i]? = some b →
      (computeTwiss sqrtQ startAt raw).envy[i]? = some (sqrtQ (b * raw.ey))) ∧
    (computeTwiss sqrtQ startAt raw).posx = (computeTwiss sqrtQ startAt raw).x ∧
    (computeTwiss sqrtQ startAt raw).posy = (computeTwiss sqrtQ startAt raw).y ∧
    (computeTwiss sqrtQ startAt raw).pos = (computeTwiss sqrtQ startAt raw).s := by
  refine ⟨?_, ?_, ?_, rfl, rfl, rfl⟩ <;>
    · intro z hz
      simp [computeTwiss, List.getElem?_map, hz]

/-- C5 witness: a one-element table starting at absolute position 100 with
local position 0 reports position 100, and the envelope entries are the
square roots of `betx * ex` and `bety * ey`. -/
theorem twiss_table_consistency_witness :
    (computeTwiss sqrtW 100 rawW).s[0]? = some (0 + 100) ∧
      (computeTwiss sqrtW 100 rawW).envx[0]? = some (sqrtW (4 * 9)) ∧
      (computeTwiss sqrtW 100 rawW).envy[0]? = some (sqrtW (5 * 11)) ∧
      (computeTwiss sqrtW 100 rawW).posx = (computeTwiss sqrtW 100 rawW).x :=
  ⟨(twiss_table_consistency sqrtW 100 rawW 0).1 0 rfl,
    (twiss_table_consistency sqrtW 100 rawW 0).2.1 4 rfl,
    (twiss_table_consistency sqrtW 100 rawW 0).2.2.1 5 rfl,
    (twiss_table_consistency sqrtW 100 rawW 0).2.2.2.1⟩

/-! ### Association list lemmas for the constraint mapping -/

theorem lookup_setdefaultAppend {β : Type} (m : List (String × List β)) (k : String) (x : β) :
    lookup? (setdefaultAppend m k x) k = some (lookupD m k [] ++ [x]) := by
  induction m with
  | nil => simp [setdefaultAppend, lookup?, lookupD]
  | cons p rest ih =>
    obtain ⟨a, l⟩ := p
    by_cases hak : a = k
    · subst hak
      simp [setdefaultAppend, lookup?, lookupD]
    · simp [setdefaultAppend, lookup?, lookupD, hak, ih]

theorem lookup_setEntry {β : Type} (m : List (String × β)) (k : String) (v : β) :
    lookup? (setEntry m k v) k = some v := by
  induction m with
  | nil => simp [setEntry, lookup?]
  | cons p rest ih =>
    obtain ⟨a, l⟩ := p
    by_cases hak : a = k
    · subst hak
      simp [setEntry, lookup?]
    · simp [setEntry, lookup?, hak, ih]

theorem lookup_eraseKey {β : Type} (m : List (String × β)) (k : String) :
    lookup? (eraseKey m k) k = none := by
  induction m with
  | nil => simp [eraseKey, lookup?]
  | cons p rest ih =>
    obtain ⟨a, l⟩ := p
    by_cases hak : a = k
    · subst hak
      simpa [eraseKey, lookup?] using ih
    · simpa [eraseKey, lookup?, hak] using ih

theorem lookup_remove (cs : Constraints) (axis : String) (elem : Elem) :
    lookupD (remove_constraint cs axis elem).1 axis [] =
      (lookupD cs axis []).filter (fun c => ¬ c.1.name = elem.name) := by
  unfold remove_constraint
  cases hl : lookup? cs axis with
  | none => simp [lookupD, hl]
  | some orig =>
    simp only [lookupD, hl, Option.getD_some]
    by_cases he : (orig.filter (fun c => ¬ c.1.name = elem.name)).isEmpty
    · rw [if_pos he]
      rw [List.isEmpty_iff] at he
      rw [he]
      simp [lookupD, lookup_eraseKey]
    · rw [if_neg he]
      simp [lookupD, lookup_setEntry]

theorem lookup_add (cs : Constraints) (axis : String) (elem : Elem) (v : ℚ) :
    lookupD (add_constraint cs axis elem v) axis [] =
      (lookupD cs axis []).filter (fun c => ¬ c.1.name = elem.name) ++ [(elem, v)] := by
  unfold add_constraint
  have h2 : lookupD (setdefaultAppend (remove_constraint cs axis elem).1 axis (elem, v)) axis []
      = lookupD (remove_constraint cs axis elem).1 axis [] ++ [(elem, v)] := by
    unfold lookupD
    rw [lookup_setdefaultAppend]
    rfl
  rw [h2, lookup_remove]

/-- C7: adding a constraint for the same `(axis, element)` pair twice
replaces the first one: afterwards `find_constraint` returns exactly one
constraint carrying the second value. -/
theorem add_add_find (cs : Constraints) (axis : String) (elem : Elem) (v1 v2 : ℚ) :
    find_constraint (add_constraint (add_constraint cs axis elem v1) axis elem v2) axis elem
      = [(elem, v2)] := by
  unfold find_constraint
  rw [lookup_add, lookup_add]
  have hFf : ((lookupD cs axis []).filter (fun c => ¬ c.1.name = elem.name)).filter
      (fun c => ¬ c.1.name = elem.name)
      = (lookupD cs axis []).filter (fun c => ¬ c.1.name = elem.name) :=
    List.filter_eq_self.mpr (fun a ha => (List.mem_filter.mp ha).2)
  have hv1 : ([((elem, v1) : Elem × ℚ)]).filter (fun c => ¬ c.1.name = elem.name) = [] := by
    simp
  have hFg : ((lookupD cs axis []).filter (fun c => ¬ c.1.name = elem.name)).filter
      (fun c => c.1 = elem) = [] := by
    rw [List.filter_eq_nil_iff]
    intro a ha
    have h1 : ¬ a.1.name = elem.name := by simpa using (List.mem_filter.mp ha).2
    simp only [decide_eq_true_eq]
    intro hh
    exact h1 (by rw [hh])
  have hv2 : ([((elem, v2) : Elem × ℚ)]).filter (fun c => c.1 = elem) = [(elem, v2)] := by
    simp
  rw [List.filter_append, List.filter_append, hFf, hv1, List.append_nil, hFg, hv2,
    List.nil_append]

/-- C8: removing right after adding leaves `find_constraint` empty; when no
other constraints remain on the axis, the axis key is dropped from the
mapping entirely; and in general the `remove_constraint` hook fires exactly
when at least one constraint (matched by element name) was removed. -/
theorem add_remove_symmetry (cs : Constraints) (axis : String) (elem : Elem) (v : ℚ)
    (h : ∀ c ∈ lookupD cs axis [], c.1.name = elem.name) :
    find_constraint (remove_constraint (add_constraint cs axis elem v) axis elem).1 axis elem = []
    ∧ lookup? (remove_constraint (add_constraint cs axis elem v) axis elem).1 axis = none
    ∧ (remove_constraint (add_constraint cs axis elem v) axis elem).2 = true
    ∧ ∀ (cs2 : Constraints) (a : String) (e : Elem),
        ((remove_constraint cs2 a e).2 = true ↔ ∃ c ∈ lookupD cs2 a [], c.1.name = e.name) := by
  have hLf : (lookupD cs axis []).filter (fun c => ¬ c.1.name = elem.name) = [] := by
    rw [List.filter_eq_nil_iff]
    intro a ha
    simp [h a ha]
  have hadd : lookup? (add_constraint cs axis elem v) axis = some [(elem, v)] := by
    unfold add_constraint
    rw [lookup_setdefaultAppend]
    rw [show lookupD (remove_constraint cs axis elem).1 axis [] = [] from
      (lookup_remove cs axis elem).trans hLf]
    rfl
  have hfil : ([((elem, v) : Elem × ℚ)]).filter (fun c => ¬ c.1.name = elem.name) = [] := by
    simp
  refine ⟨?_, ?_, ?_, ?_⟩
  · unfold find_constraint
    rw [lookup_remove, lookup_add, List.filter_append]
    have hFf : ((lookupD cs axis []).filter (fun c => ¬ c.1.name = elem.name)).filter
        (fun c => ¬ c.1.name = elem.name)
        = (lookupD cs axis []).filter (fun c => ¬ c.1.name = elem.name) :=
      List.filter_eq_self.mpr (fun a ha => (List.mem_filter.mp ha).2)
    rw [hFf, hfil, List.append_nil, hLf]
    simp
  · simp only [remove_constraint, hadd]
    rw [hfil]
    simp [lookup_eraseKey]
  · simp only [remove_constraint, hadd]
    rw [hfil]
    simp
  · intro cs2 a e
    unfold remove_constraint
    cases hl : lookup? cs2 a with
    | none => simp [lookupD, hl]
    | some orig =>
      simp only [lookupD, hl, Option.getD_some]
      rw [decide_eq_true_eq, List.length_filter_lt_length_iff_exists]
      constructor
      · rintro ⟨x, hx, hpx⟩
        exact ⟨x, hx, by simpa using hpx⟩
      · rintro ⟨x, hx, hnx⟩
        exact ⟨x, hx, by simp [hnx]⟩

/-- C8 witness: add one constraint to the empty mapping, remove it again;
the find result is empty, the axis key is gone, and the hook fired. -/
theorem add_remove_symmetry_witness :
    find_constraint (remove_constraint (add_constraint [] "envx" mm 2) "envx" mm).1 "envx" mm = []
    ∧ lookup? (remove_constraint (add_constraint [] "envx" mm 2) "envx" mm).1 "envx" = none
    ∧ (remove_constraint (add_constraint [] "envx" mm 2) "envx" mm).2 = true
    ∧ ∀ (cs2 : Constraints) (a : String) (e : Elem),
        ((remove_constraint cs2 a e).2 = true ↔ ∃ c ∈ lookupD cs2 a [], c.1.name = e.name) :=
  add_remove_symmetry [] "envx" mm 2 (by decide)

/-! ### Abort propagation and greedy loop invariants -/

theorem greedyLoop_append_error (pre : List (String × Elem)) (axis : String) (e : Elem)
    (post : List (String × Elem)) (st0 st : GState)
    (h3 : greedyLoop pre st0 = .ok st) (hs : greedyStep axis e st = .error ()) :
    greedyLoop (pre ++ (axis, e) :: post) st0 = .error () := by
  induction pre generalizing st0 with
  | nil =>
    simp only [greedyLoop, Except.ok.injEq] at h3
    subst h3
    simp only [List.nil_append, greedyLoop, hs]
  | cons y pre ih =>
    obtain ⟨ya, ye⟩ := y
    simp only [greedyLoop] at h3
    cases hys : greedyStep ya ye st0 with
    | error u => simp [hys] at h3
    | ok st1 =>
      simp only [hys] at h3
      simp only [List.cons_append, greedyLoop, hys]
      exact ih st1 h3

/-- C2: when the candidate chosen for some constraint yields no eligible
modifiable parameter, the whole `match()` call raises: the greedy loop
short-circuits past all remaining constraints, no request reaches the
external solver (the result carries no vary-list at all), no optics
refresh happens, and the constraint set is exactly as before the call. -/
theorem match_aborts_on_knob_failure (m : MatchingState) (tc : TransConstr)
    (pre post : List (String × Elem)) (axis : String) (e : Elem)
    (st : GState) (v : Cand)
    (h1 : matchTC m = .ok tc)
    (h2 : flatEntries tc = pre ++ (axis, e) :: post)
    (h3 : greedyLoop pre ⟨(matchPools m tc).2, [], []⟩ = .ok st)
    (h4 : pickMax ((lookupD st.allvars axis []).filter (fun c => c.1.at_ < e.at_)) = some v)
    (h5 : get_any_elem_param v.1 v.2 = .error ()) :
    (matchRun m).2 = .error () ∧
      ((matchRun m).1).constraints = m.constraints ∧
      ((matchRun m).1).refreshCount = m.refreshCount := by
  have hs : greedyStep axis e st = .error () := by
    simp only [greedyStep, h4, h5]
  have hloop : greedyLoop (flatEntries tc) ⟨(matchPools m tc).2, [], []⟩ = .error () := by
    rw [h2]
    exact greedyLoop_append_error pre axis e post _ st h3 hs
  unfold matchRun
  simp only [h1, hloop]
  exact ⟨trivial, trivial, trivial⟩

/-- C2 witness: the only upstream candidate's sole eligible parameter has
value zero and no expression, so the whole match aborts. -/
theorem match_aborts_on_knob_failure_witness :
    (matchRun mFail).2 = .error () ∧
      ((matchRun mFail).1).constraints = mFail.constraints ∧
      ((matchRun mFail).1).refreshCount = mFail.refreshCount :=
  match_aborts_on_knob_failure mFail tcF [] [] "betx" mm
    ⟨(matchPools mFail tcF).2, [], []⟩ (qz, ["k1"])
    (by rfl) (by rfl) (by rfl) (by rfl) (by rfl)

theorem greedyStep_inv (axis : String) (e : Elem) (st st' : GState)
    (hinv : GInv st) (hstep : greedyStep axis e st = .ok st') : GInv st' := by
  simp only [greedyStep] at hstep
  cases hm : pickMax ((lookupD st.allvars axis []).filter (fun c => c.1.at_ < e.at_)) with
  | none =>
    simp only [hm, Except.ok.injEq] at hstep
    rw [← hstep]
    exact hinv
  | some v =>
    simp only [hm] at hstep
    cases hg : get_any_elem_param v.1 v.2 with
    | error u => simp [hg] at hstep
    | ok s =>
      simp only [hg, Except.ok.injEq] at hstep
      subst hstep
      have hvfil := pickMax_mem hm
      have hvmem : v ∈ lookupD st.allvars axis [] := (List.mem_filter.mp hvfil).1
      have hpool : ∃ pool, lookup? st.allvars axis = some pool ∧ v ∈ pool := by
        cases hlk : lookup? st.allvars axis with
        | none =>
          rw [lookupD, hlk] at hvmem
          simp at hvmem
        | some pool =>
          refine ⟨pool, rfl, ?_⟩
          rw [lookupD, hlk] at hvmem
          simpa using hvmem
      obtain ⟨pool, hlk, hvp⟩ := hpool
      have hpmem : (axis, pool) ∈ st.allvars := lookup?_mem hlk
      obtain ⟨hA, hB⟩ := hinv.1
      refine ⟨⟨?_, ?_⟩, ?_, ?_⟩
      · intro p hp
        obtain ⟨q, hq, rfl⟩ := List.mem_map.mp hp
        exact ((hA q hq).sublist ((List.erase_sublist _ _).map _))
      · intro p hp q hq c hc c' hc' hname
        obtain ⟨p0, hp0, rfl⟩ := List.mem_map.mp hp
        obtain ⟨q0, hq0, rfl⟩ := List.mem_map.mp hq
        exact hB p0 hp0 q0 hq0 c (List.mem_of_mem_erase hc) c' (List.mem_of_mem_erase hc') hname
      · intro pk hpk p hp c hc
        obtain ⟨p0, hp0, rfl⟩ := List.mem_map.mp hp
        have hcp0 : c ∈ p0.2 := List.mem_of_mem_erase hc
        rcases List.mem_append.mp hpk with hold | hnew
        · exact hinv.2.1 pk hold p0 hp0 c hcp0
        · have hpk_eq : pk = (e, v) := by simpa using hnew
          subst hpk_eq
          intro hcontra
          have hcv : c = v := hB p0 hp0 (axis, pool) hpmem c hcp0 v hvp (by simpa using hcontra)
          rw [hcv] at hc
          have hnodup : p0.2.Nodup := List.Nodup.of_map _ (hA p0 hp0)
          exact ((hnodup.mem_erase_iff).mp hc).1 rfl
      · rw [List.map_append, List.nodup_append]
        refine ⟨hinv.2.2, by simp, ?_⟩
        intro a ha hb
        obtain ⟨pk, hpk, rfl⟩ := List.mem_map.mp ha
        have hb1 : pk.2.1.name = v.1.name := by simpa using hb
        exact hinv.2.1 pk hpk (axis, pool) hpmem v hvp hb1.symm

theorem greedyLoop_inv (entries : List (String × Elem)) (st st' : GState)
    (hinv : GInv st) (hl : greedyLoop entries st = .ok st') : GInv st' := by
  induction entries generalizing st with
  | nil =>
    simp only [greedyLoop, Except.ok.injEq] at hl
    rw [← hl]
    exact hinv
  | cons y rest ih =>
    obtain ⟨ya, ye⟩ := y
    simp only [greedyLoop] at hl
    cases hys : greedyStep ya ye st with
    | error u => simp [hys] at hl
    | ok st1 =>
      simp only [hys] at hl
      exact ih st1 (greedyStep_inv ya ye st st1 hinv hys) hl

/-- C1 counterexample: with rule tables that assign different parameter
lists to the `quad` type on the two axes, one `match()` call picks element
`q1` for both constraints — the cross-axis pool removal `c.remove(v)`
misses the differently-parameterised tuple — so the vary-list hands the
solver two knobs of the same element. -/
theorem match_vary_duplicate_element :
    (matchPicks mDup).toOption = some [(mm, (q1, ["k1"])), (mm, (q1, ["k1s"]))] ∧
      varyOf (matchRun mDup).2 = some ["q1->k1", "q1->k1s"] ∧
      ¬ (((matchPicks mDup).toOption.getD []).map (fun pk => pk.2.1.name)).Nodup :=
  ⟨by decide, by decide, by decide⟩

/-- C1 amended: provided the initial working pools are well-formed — each
pool lists an element at most once and entries sharing an element carry the
same eligible-parameter list across all axes (as when every axis's rule
table assigns the same parameter list to each element type) — one
`match()` call never picks the same element for two constraints, across
all axes combined. -/
theorem match_knob_global_uniqueness (m : MatchingState) (picks : List (Elem × Cand))
    (hpool : PoolsOK (matchInitPools m))
    (h : (matchPicks m).toOption = some picks) :
    (picks.map (fun pk => pk.2.1.name)).Nodup := by
  unfold matchPicks at h
  cases htc : matchTC m with
  | error u =>
    simp only [htc] at h
    simp [Except.toOption] at h
  | ok tc =>
    simp only [htc] at h
    cases hgl : greedyLoop (flatEntries tc) ⟨(matchPools m tc).2, [], []⟩ with
    | error u =>
      simp only [hgl] at h
      simp [Except.map, Except.toOption] at h
    | ok stf =>
      simp only [hgl, Except.map, Except.toOption, Option.some.injEq] at h
      have hinit : GInv ⟨(matchPools m tc).2, [], []⟩ := by
        refine ⟨?_, ?_, ?_⟩
        · have heq : matchInitPools m = (matchPools m tc).2 := by
            unfold matchInitPools
            rw [htc]
          rw [← heq]
          exact hpool
        · intro pk hpk
          simp at hpk
        · simp
      have hfin := greedyLoop_inv _ _ _ hinit hgl
      rw [← h]
      exact hfin.2.2

/-- C1 amended witness: with agreeing rule tables the element is removed
from both axes' pools after its first assignment, so it is picked once. -/
theorem match_knob_global_uniqueness_witness :
    PoolsOK (matchInitPools mUniq) ∧
      ((((matchPicks mUniq).toOption.getD []).map (fun pk => pk.2.1.name)).Nodup) :=
  ⟨by unfold PoolsOK; decide,
    match_knob_global_uniqueness mUniq ((matchPicks mUniq).toOption.getD [])
      (by unfold PoolsOK; decide) (by decide)⟩
